import Mathlib

/-!
Shallow embedding of the NFS export-table manager in lib/libshare/nfs.c.

The artifact (/etc/exports.d/zfs.exports) is modelled as `Option (List String)`:
`none` when the file is absent, otherwise its list of newline-terminated lines
(stored without the trailing newline).  Strings are handled at the character
level (`String.data`), matching the byte-level C string operations on the
ASCII inputs the code deals with.  File-system and allocation failures are not
modelled; the only error the embedded code can produce is the syntax error of
option translation, which is the one the claims are about.
-/

/-- Return codes of the libshare API used by nfs.c:
SA_OK, SA_NO_MEMORY, SA_SYNTAX_ERR, SA_SYSTEM_ERR. -/
inductive SAStatus where
  | ok
  | noMemory
  | syntaxErr
  | systemErr
deriving DecidableEq, Repr

/-- Offset of the first occurrence of character `c` in a character list;
models C `strchr` (which returns a pointer to the first occurrence, here
rendered as an index). -/
def strchr_idx (c : Char) : List Char → Option Nat
  | [] => none
  | a :: l => if a = c then some 0 else (strchr_idx c l).map (· + 1)

/-- Splits a character list at every occurrence of the delimiter `c`,
keeping empty pieces.  This is the piece sequence produced by the scanning
loops of nfs.c: the comma loop of foreach_nfs_shareopt (lines 113-144) and
the colon loop of foreach_nfs_host_cb (lines 192-210) both walk the string
delimiter by delimiter, the final piece being delimited by the end of the
string. -/
def split_char (c : Char) : List Char → List (List Char)
  | [] => [[]]
  | a :: l =>
    if a = c then [] :: split_char c l
    else
      match split_char c l with
      | [] => [[a]]
      | t :: ts => (a :: t) :: ts

/-- Splits one share-option token at its first '=' into key and optional
value (nfs.c lines 125-130: `value = strchr(opt, '='); *value = 0; value++`). -/
def eq_split (t : List Char) : List Char × Option (List Char) :=
  match strchr_idx '=' t with
  | none => (t, none)
  | some i => (t.take i, some (t.drop (i + 1)))

/-- Comma-joined character lists; used to state the tokenization property:
`join_comma` is the inverse image construction for `split_char ','`. -/
def join_comma : List (List Char) → List Char
  | [] => []
  | [t] => t
  | t :: ts => t ++ ',' :: join_comma ts

/-- The key/value token sequence visited by foreach_nfs_shareopt
(nfs.c lines 92-149): a NULL option string yields no tokens (SA_OK);
the literal "on" is first rewritten to "rw,crossmnt"; the string is split
on commas; empty tokens are skipped (the `cur > opt` test); each remaining
token is split at its first '=' into key and optional value. -/
def foreach_nfs_shareopt (shareopts : Option String) : List (String × Option String) :=
  match shareopts with
  | none => []
  | some s =>
    let s := if s = "on" then "rw,crossmnt" else s
    ((split_char ',' s.data).filter (fun t => t ≠ [])).map
      (fun t => (String.mk (eq_split t).1, ((eq_split t).2).map String.mk))

/-- One per-host authorization entry, as handed to the host callback
(nfs_host_callback_t): share path, raw host specifier, the security slot at
the time the entry was produced, and the access class ("rw" or "ro"). -/
structure HostEntry where
  path : String
  host : String
  sec : Option String
  access : String
deriving DecidableEq, Repr

/-- One step of foreach_nfs_host_cb (nfs.c lines 164-216) on the running
state (current security slot, entries produced so far).  A "sec" token
stores its value in the slot (`udata->security = value`, NULL value
included); a "rw"/"ro" token with a NULL value defaults to "*", and its
value is split on colons, every piece (empty pieces included) yielding one
entry carrying the current slot and the access class. -/
def foreach_nfs_host_cb (sharepath : String) (st : Option String × List HostEntry)
    (kv : String × Option String) : Option String × List HostEntry :=
  let security := if kv.1 = "sec" then kv.2 else st.1
  if kv.1 = "rw" ∨ kv.1 = "ro" then
    let value := kv.2.getD "*"
    let hosts := (split_char ':' value.data).map String.mk
    (security, st.2 ++ hosts.map (fun h => ⟨sharepath, h, security, kv.1⟩))
  else
    (security, st.2)

/-- Left-to-right scan of a token list by foreach_nfs_host_cb. -/
def host_scan (sharepath : String) (st : Option String × List HostEntry)
    (ts : List (String × Option String)) : Option String × List HostEntry :=
  ts.foldl (foreach_nfs_host_cb sharepath) st

/-- The entry sequence produced by foreach_nfs_host (nfs.c lines 221-238):
the token scan starting from the initial security slot "sys" (line 232). -/
def foreach_nfs_host (shareopts : Option String) (sharepath : String) : List HostEntry :=
  (host_scan sharepath (some "sys", []) (foreach_nfs_shareopt shareopts)).2

/-- get_linux_hostspec (nfs.c lines 243-265): a leading '@' (Solaris
network-mask notation) is stripped; every other form passes through. -/
def get_linux_hostspec (s : String) : String :=
  match s.data with
  | '@' :: rest => String.mk rest
  | _ => s

/-- The fixed allow-list of Linux export options accepted by
get_linux_shareopts_cb (nfs.c lines 504-521). -/
def allowedKeys : List String :=
  ["insecure", "secure", "async", "sync", "no_wdelay", "wdelay", "nohide",
   "hide", "crossmnt", "no_subtree_check", "subtree_check", "insecure_locks",
   "secure_locks", "no_auth_nlm", "auth_nlm", "no_acl", "mountpoint", "mp",
   "fsuid", "refer", "replicas", "root_squash", "no_root_squash",
   "all_squash", "no_all_squash", "fsid", "anonuid", "anongid"]

/-- get_linux_shareopts_cb (nfs.c lines 483-528) acting on the accumulated
translated-option list (add_linux_shareopt appends at the end): "ro", "rw"
and "sec" are consumed silently; "anon" is renamed "anonuid";
"root_mapping" first emits "root_squash" with no value and then continues
as "anonuid" with the original value; "nosub" is renamed "subtree_check";
any resulting key outside the allow-list is SA_SYNTAX_ERR. -/
def get_linux_shareopts_cb (key : String) (value : Option String)
    (plinux_opts : List (String × Option String)) :
    Except SAStatus (List (String × Option String)) :=
  if key = "ro" ∨ key = "rw" ∨ key = "sec" then .ok plinux_opts
  else
    let key1 := if key = "anon" then "anonuid" else key
    let opts1 := if key1 = "root_mapping" then plinux_opts ++ [("root_squash", none)]
                 else plinux_opts
    let key2 := if key1 = "root_mapping" then "anonuid" else key1
    let key3 := if key2 = "nosub" then "subtree_check" else key2
    if allowedKeys.contains key3 then .ok (opts1 ++ [(key3, value)])
    else .error .syntaxErr

/-- Whether a key is rejected by get_linux_shareopts_cb: not one of the
silently consumed host keys, and outside the allow-list after the
anon/root\x7bmapping/nosub rewrites (root_mapping itself always lands on
"anonuid value", hence is never rejected). -/
def shareopt_key_rejected (key : String) : Bool :=
  if key = "ro" ∨ key = "rw" ∨ key = "sec" then false
  else
    let key1 := if key = "anon" then "anonuid" else key
    let key2 := if key1 = "root_mapping" then "anonuid" else key1
    let key3 := if key2 = "nosub" then "subtree_check" else key2
    !(allowedKeys.contains key3)

/-- get_linux_shareopts (nfs.c lines 534-558): the two manager defaults
no_subtree_check and mountpoint are added first, then the option string is
folded through get_linux_shareopts_cb; on error the partial list is freed
and only the error is returned. -/
def get_linux_shareopts (shareopts : Option String) :
    Except SAStatus (List (String × Option String)) :=
  (foreach_nfs_shareopt shareopts).foldlM
    (fun opts kv => get_linux_shareopts_cb kv.1 kv.2 opts)
    [("no_subtree_check", none), ("mountpoint", none)]

/-- One translated option as rendered by add_linux_shareopt: "key" or
"key=value". -/
def render_opt : String × Option String → String
  | (k, none) => k
  | (k, some v) => k ++ "=" ++ v

/-- The comma-joined translated option string built by add_linux_shareopt
(nfs.c lines 447-477). -/
def render_opts (opts : List (String × Option String)) : String :=
  String.intercalate "," (opts.map render_opt)

/-- printf "%s" of the security slot.  The slot is NULL only when a bare
"sec" token without value occurred (printing NULL with %s is undefined
behavior in C; glibc renders "(null)"). -/
def renderSec : Option String → String
  | some s => s
  | none => "(null)"

/-- The line appended by nfs_add_entry (nfs.c lines 403-442):
"%s %s(sec=%s,%s,%s)\n" with the share path, the Linux host specifier, the
security mode, the access class and the translated option string (NULL
options render as "").  Modelled without the trailing newline: the artifact
is a list of newline-terminated lines. -/
def nfs_add_entry_line (linux_opts : String) (e : HostEntry) : String :=
  e.path ++ " " ++ get_linux_hostspec e.host ++ "(sec=" ++ renderSec e.sec ++
    "," ++ e.access ++ "," ++ linux_opts ++ ")"

/-- The skip test of nfs_copy_entries (nfs.c lines 636-643) and the match
test of nfs_is_shared (lines 764-769), on character lists: the line contains
a space, the offset of its first space equals the mountpoint length, and the
first mountpoint-length characters equal the mountpoint (strncmp). -/
def line_matches_chars (mp l : List Char) : Bool :=
  match strchr_idx ' ' l with
  | none => false
  | some i => i == mp.length && l.take mp.length == mp

/-- The same test on strings. -/
def line_matches (mp l : String) : Bool := line_matches_chars mp.data l.data

/-- The canonical export artifact: `none` when the file is absent,
otherwise its lines. -/
abbrev Artifact := Option (List String)

/-- nfs_copy_entries (nfs.c lines 617-663): the contents of the freshly
written temporary file.  An absent artifact is an empty table (SA_OK, the
mkstemp temp file stays empty); otherwise every line is streamed through,
omitting the ones whose path field matches the mountpoint. -/
def nfs_copy_entries (artifact : Artifact) (mountpoint : String) : List String :=
  match artifact with
  | none => []
  | some lines => lines.filter (fun l => !line_matches mountpoint l)

/-- nfs_is_shared (nfs.c lines 751-779): false when the artifact is absent,
otherwise true exactly when some line matches the mountpoint. -/
def nfs_is_shared (artifact : Artifact) (mountpoint : String) : Bool :=
  match artifact with
  | none => false
  | some lines => lines.any (fun l => line_matches mountpoint l)

/-- nfs_validate_shareopts (nfs.c lines 736-749): runs the translation
purely for its error signal. -/
def nfs_validate_shareopts (shareopts : Option String) : SAStatus :=
  match get_linux_shareopts shareopts with
  | .error e => e
  | .ok _ => .ok

/-- nfs_enable_share (nfs.c lines 680-713) as a transformer of the artifact
state: the temp file receives the current artifact minus the mountpoint's
lines (nfs_copy_entries); if option translation fails the temp file is
unlinked and the artifact is left untouched; otherwise one rendered line per
expanded host entry is appended (foreach_nfs_host with nfs_add_entry) and
the temp file is renamed over the artifact (nfs_fini_tmpfile). -/
def nfs_enable_share (artifact : Artifact) (mountpoint : String)
    (shareopts : Option String) : SAStatus × Artifact :=
  let temp := nfs_copy_entries artifact mountpoint
  match get_linux_shareopts shareopts with
  | .error e => (e, artifact)
  | .ok linux_opts =>
    (SAStatus.ok,
     some (temp ++ (foreach_nfs_host shareopts mountpoint).map
       (nfs_add_entry_line (render_opts linux_opts))))

/-- nfs_disable_share (nfs.c lines 718-731): the filtered copy replaces the
artifact unconditionally. -/
def nfs_disable_share (artifact : Artifact) (mountpoint : String) :
    SAStatus × Artifact :=
  (SAStatus.ok, some (nfs_copy_entries artifact mountpoint))

/-- Effect on the artifact of the flock-based nfs_exports_lock
(nfs.c lines 63-74): only the lock file is opened; the artifact itself is
untouched. -/
def nfs_exports_lock_flock (artifact : Artifact) : Artifact :=
  artifact

/-- Effect on the artifact of the fcntl-based nfs_exports_lock
(nfs.c lines 269-321).  Modelled from the spec: the ZFS_EXPORTS path macro
is defined outside this repository's sources; the spec identifies it with
the canonical export artifact ("acquire must also ensure the canonical
artifact exists").  After taking the lock the code removes the file when it
exists (lines 305-311) and then creates it empty (line 313), so a
successful acquire always leaves an existing, empty artifact. -/
def nfs_exports_lock_fcntl (artifact : Artifact) : Artifact :=
  match artifact with
  | some _ => some []
  | none => some []

/-! ### Helper lemmas: strchr, take/drop, split_char -/

theorem strchr_idx_eq_none (c : Char) (l : List Char) :
    strchr_idx c l = none ↔ c ∉ l := by
  induction l with
  | nil => simp [strchr_idx]
  | cons a l ih =>
    by_cases h : a = c
    · simp [strchr_idx, h]
    · simp only [strchr_idx, if_neg h, List.mem_cons]
      cases hx : strchr_idx c l with
      | none =>
        simp only [Option.map_none', true_iff]
        rw [hx] at ih
        have hcl : c ∉ l := ih.mp rfl
        exact fun hor => hor.elim (fun hc => h hc.symm) hcl
      | some i =>
        simp only [Option.map_some']
        constructor
        · intro hcontra; exact Option.noConfusion hcontra
        · intro hnot
          exfalso
          rw [hx] at ih
          have : c ∈ l := by
            by_contra hcl
            exact Option.noConfusion (ih.mpr hcl)
          exact hnot (Or.inr this)

theorem strchr_idx_append (c : Char) (a b : List Char) (h : c ∉ a) :
    strchr_idx c (a ++ c :: b) = some a.length := by
  induction a with
  | nil => simp [strchr_idx]
  | cons x a ih =>
    have hx : x ≠ c := fun hh => h (by simp [hh])
    have ha : c ∉ a := fun hm => h (List.mem_cons_of_mem x hm)
    show strchr_idx c (x :: (a ++ c :: b)) = some (a.length + 1)
    rw [strchr_idx, if_neg hx, ih ha]
    rfl

theorem strchr_idx_some (c : Char) :
    ∀ (l : List Char) (i : Nat), strchr_idx c l = some i →
      ∃ x y, l = x ++ c :: y ∧ c ∉ x ∧ x.length = i
  | [], i, h => by simp [strchr_idx] at h
  | a :: l, i, h => by
    by_cases ha : a = c
    · rw [strchr_idx, if_pos ha] at h
      refine ⟨[], l, by simp [ha], by simp, ?_⟩
      simpa using Option.some.inj h
    · rw [strchr_idx, if_neg ha] at h
      cases hx : strchr_idx c l with
      | none => rw [hx] at h; exact Option.noConfusion h
      | some j =>
        rw [hx] at h
        simp only [Option.map_some'] at h
        obtain ⟨x, y, rfl, hcx, hlen⟩ := strchr_idx_some c l j hx
        refine ⟨a :: x, y, by simp, ?_, ?_⟩
        · intro hm
          rcases List.mem_cons.mp hm with hm | hm
          · exact ha hm.symm
          · exact hcx hm
        · simp [hlen, ← Option.some.inj h]

theorem take_len_append (a b : List Char) : (a ++ b).take a.length = a := by
  induction a with
  | nil => rfl
  | cons x a ih => simp [ih]

theorem drop_len_cons (a : List Char) (x : Char) (b : List Char) :
    (a ++ x :: b).drop (a.length + 1) = b := by
  induction a with
  | nil => rfl
  | cons y a ih => simp only [List.cons_append, List.length_cons, List.drop_succ_cons]; exact ih

theorem eq_split_no_eq (t : List Char) (h : '=' ∉ t) : eq_split t = (t, none) := by
  unfold eq_split
  rw [(strchr_idx_eq_none '=' t).mpr h]

theorem eq_split_first (k v : List Char) (h : '=' ∉ k) :
    eq_split (k ++ '=' :: v) = (k, some v) := by
  unfold eq_split
  rw [strchr_idx_append '=' k v h]
  simp [take_len_append, drop_len_cons]

theorem split_char_not_mem (c : Char) (t : List Char) (h : c ∉ t) :
    split_char c t = [t] := by
  induction t with
  | nil => rfl
  | cons a t ih =>
    have ha : a ≠ c := fun hh => h (by simp [hh])
    have ht : c ∉ t := fun hm => h (List.mem_cons_of_mem a hm)
    rw [split_char, if_neg ha, ih ht]

theorem split_char_append (c : Char) (a b : List Char) (h : c ∉ a) :
    split_char c (a ++ c :: b) = a :: split_char c b := by
  induction a with
  | nil => simp [split_char]
  | cons x a ih =>
    have hx : x ≠ c := fun hh => h (by simp [hh])
    have ha : c ∉ a := fun hm => h (List.mem_cons_of_mem x hm)
    rw [List.cons_append, split_char, if_neg hx, ih ha]

theorem split_join_comma (toks : List (List Char)) (h : ∀ t ∈ toks, ',' ∉ t) :
    (split_char ',' (join_comma toks)).filter (fun t => t ≠ []) =
      toks.filter (fun t => t ≠ []) := by
  induction toks with
  | nil => simp [join_comma, split_char]
  | cons t ts ih =>
    cases ts with
    | nil => rw [join_comma, split_char_not_mem ',' t (h t (by simp))]
    | cons t2 ts2 =>
      rw [show join_comma (t :: t2 :: ts2) = t ++ ',' :: join_comma (t2 :: ts2) from rfl,
        split_char_append ',' t _ (h t (by simp))]
      have ih2 := ih (fun x hx => h x (List.mem_cons_of_mem t hx))
      simp only [ne_eq, decide_not] at ih2
      simp [List.filter_cons, ih2]

/-! ### Helper lemmas: the path-field match -/

theorem string_data_append (a b : String) : (a ++ b).data = a.data ++ b.data := rfl

theorem line_matches_chars_iff (mp l : List Char) :
    line_matches_chars mp l = true ↔
      ∃ rest, l = mp ++ ' ' :: rest ∧ ' ' ∉ mp := by
  unfold line_matches_chars
  cases hs : strchr_idx ' ' l with
  | none =>
    simp only [Bool.false_eq_true, false_iff]
    rintro ⟨rest, rfl, hmp⟩
    rw [strchr_idx_append ' ' mp rest hmp] at hs
    exact Option.noConfusion hs
  | some i =>
    simp only [Bool.and_eq_true, beq_iff_eq]
    constructor
    · rintro ⟨hlen, htake⟩
      obtain ⟨x, y, rfl, hx, hxlen⟩ := strchr_idx_some ' ' l i hs
      have hxm : x.length = mp.length := by rw [hxlen, hlen]
      have : (x ++ ' ' :: y).take mp.length = x := by
        rw [← hxm, take_len_append]
      rw [this] at htake
      exact ⟨y, by rw [htake], htake ▸ hx⟩
    · rintro ⟨rest, rfl, hmp⟩
      rw [strchr_idx_append ' ' mp rest hmp] at hs
      refine ⟨(Option.some.inj hs).symm, ?_⟩
      exact take_len_append mp (' ' :: rest)

theorem line_matches_of_split (mp rest : String) (h : ' ' ∉ mp.data) :
    line_matches_chars mp.data (mp.data ++ ' ' :: rest.data) = true :=
  (line_matches_chars_iff mp.data _).mpr ⟨rest.data, rfl, h⟩

theorem add_entry_line_matches (mp lo : String) (e : HostEntry)
    (hp : e.path = mp) (h : ' ' ∉ mp.data) :
    line_matches mp (nfs_add_entry_line lo e) = true := by
  unfold line_matches nfs_add_entry_line
  rw [hp]
  refine (line_matches_chars_iff _ _).mpr
    ⟨(get_linux_hostspec e.host ++ "(sec=" ++ renderSec e.sec ++ "," ++ e.access ++
        "," ++ lo ++ ")").data, ?_, h⟩
  simp [string_data_append, List.append_assoc]

theorem copy_entries_not_match (artifact : Artifact) (mp : String) :
    ∀ l ∈ nfs_copy_entries artifact mp, line_matches mp l = false := by
  intro l hl
  cases artifact with
  | none => cases hl
  | some lines =>
    have hmem := List.mem_filter.mp hl
    simpa using hmem.2

/-! ### Helper lemmas: the host scan -/

theorem host_cb_slot (p : String) (st : Option String × List HostEntry)
    (kv : String × Option String) :
    (foreach_nfs_host_cb p st kv).1 = (if kv.1 = "sec" then kv.2 else st.1) := by
  by_cases hrw : kv.1 = "rw" ∨ kv.1 = "ro" <;> simp [foreach_nfs_host_cb, hrw]

theorem host_cb_entries (p : String) (st : Option String × List HostEntry)
    (kv : String × Option String) :
    ∃ r, (foreach_nfs_host_cb p st kv).2 = st.2 ++ r ∧
      ∀ e ∈ r, e.path = p ∧ e.sec = (foreach_nfs_host_cb p st kv).1 := by
  by_cases hrw : kv.1 = "rw" ∨ kv.1 = "ro"
  · refine ⟨((split_char ':' ((kv.2.getD "*").data)).map String.mk).map
      (fun h => ⟨p, h, if kv.1 = "sec" then kv.2 else st.1, kv.1⟩), ?_, ?_⟩
    · simp [foreach_nfs_host_cb, hrw]
    · intro e he
      obtain ⟨hst, -, rfl⟩ := List.mem_map.mp he
      exact ⟨rfl, by rw [host_cb_slot]⟩
  · exact ⟨[], by simp [foreach_nfs_host_cb, hrw], by simp⟩

theorem host_scan_nil (p : String) (st : Option String × List HostEntry) :
    host_scan p st [] = st := rfl

theorem host_scan_cons (p : String) (st : Option String × List HostEntry)
    (kv : String × Option String) (ts : List (String × Option String)) :
    host_scan p st (kv :: ts) = host_scan p (foreach_nfs_host_cb p st kv) ts := rfl

theorem host_scan_entries (p : String) (ts : List (String × Option String)) :
    ∀ st, ∃ r, (host_scan p st ts).2 = st.2 ++ r := by
  induction ts with
  | nil => exact fun st => ⟨[], by simp [host_scan_nil]⟩
  | cons kv ts ih =>
    intro st
    obtain ⟨r0, h0, -⟩ := host_cb_entries p st kv
    obtain ⟨r1, h1⟩ := ih (foreach_nfs_host_cb p st kv)
    exact ⟨r0 ++ r1, by rw [host_scan_cons, h1, h0, List.append_assoc]⟩

theorem host_scan_sys (p : String) (ts : List (String × Option String)) :
    ∀ st, (∀ kv ∈ ts, kv.1 ≠ "sec") → st.1 = some "sys" →
      (∀ e ∈ st.2, e.sec = some "sys") →
      (host_scan p st ts).1 = some "sys" ∧
        ∀ e ∈ (host_scan p st ts).2, e.sec = some "sys" := by
  induction ts with
  | nil => exact fun st _ h1 h2 => ⟨h1, h2⟩
  | cons kv ts ih =>
    intro st hts h1 h2
    have hkv : kv.1 ≠ "sec" := hts kv (by simp)
    have hcb1 : (foreach_nfs_host_cb p st kv).1 = some "sys" := by
      rw [host_cb_slot, if_neg hkv, h1]
    obtain ⟨r, hr, hre⟩ := host_cb_entries p st kv
    have hcb2 : ∀ e ∈ (foreach_nfs_host_cb p st kv).2, e.sec = some "sys" := by
      rw [hr]
      intro e he
      rcases List.mem_append.mp he with hmem | hmem
      · exact h2 e hmem
      · rw [(hre e hmem).2, hcb1]
    rw [host_scan_cons]
    exact ih (foreach_nfs_host_cb p st kv)
      (fun kv2 hk => hts kv2 (List.mem_cons_of_mem kv hk)) hcb1 hcb2

theorem host_scan_paths (p : String) (ts : List (String × Option String)) :
    ∀ st, (∀ e ∈ st.2, e.path = p) →
      ∀ e ∈ (host_scan p st ts).2, e.path = p := by
  induction ts with
  | nil => exact fun st h => h
  | cons kv ts ih =>
    intro st hst
    obtain ⟨r, hr, hre⟩ := host_cb_entries p st kv
    have hcb : ∀ e ∈ (foreach_nfs_host_cb p st kv).2, e.path = p := by
      rw [hr]
      intro e he
      rcases List.mem_append.mp he with hmem | hmem
      · exact hst e hmem
      · exact (hre e hmem).1
    rw [host_scan_cons]
    exact ih (foreach_nfs_host_cb p st kv) hcb

theorem foreach_nfs_host_paths (shareopts : Option String) (p : String) :
    ∀ e ∈ foreach_nfs_host shareopts p, e.path = p :=
  host_scan_paths p (foreach_nfs_shareopt shareopts) (some "sys", []) (by simp)

/-! ### Helper lemmas: option translation errors -/

theorem cb_of_rejected {key : String} (h : shareopt_key_rejected key = true)
    (value : Option String) (opts : List (String × Option String)) :
    get_linux_shareopts_cb key value opts = .error .syntaxErr := by
  unfold shareopt_key_rejected at h
  unfold get_linux_shareopts_cb
  by_cases h1 : key = "ro" ∨ key = "rw" ∨ key = "sec"
  · rw [if_pos h1] at h
    exact absurd h (by simp)
  · rw [if_neg h1] at h
    rw [if_neg h1]
    simp only [Bool.not_eq_eq_eq_not, Bool.not_true] at h
    simp only [h, Bool.false_eq_true, if_false]

theorem cb_of_accepted {key : String} (h : shareopt_key_rejected key = false)
    (value : Option String) (opts : List (String × Option String)) :
    ∃ o, get_linux_shareopts_cb key value opts = .ok o := by
  cases hx : get_linux_shareopts_cb key value opts with
  | ok o => exact ⟨o, rfl⟩
  | error e =>
    exfalso
    unfold shareopt_key_rejected at h
    unfold get_linux_shareopts_cb at hx
    by_cases h1 : key = "ro" ∨ key = "rw" ∨ key = "sec"
    · rw [if_pos h1] at hx
      exact Except.noConfusion hx
    · rw [if_neg h1] at h
      rw [if_neg h1] at hx
      simp only [Bool.not_eq_eq_eq_not, Bool.not_false] at h
      simp only [h, if_true] at hx
      exact Except.noConfusion hx

theorem shareopts_fold_error (ts : List (String × Option String)) :
    ∀ acc, (∃ kv ∈ ts, shareopt_key_rejected kv.1 = true) →
      ts.foldlM (fun opts kv => get_linux_shareopts_cb kv.1 kv.2 opts) acc =
        .error .syntaxErr := by
  induction ts with
  | nil => rintro acc ⟨kv, hmem, -⟩; cases hmem
  | cons kv ts ih =>
    rintro acc ⟨kv2, hmem, hrej⟩
    rw [List.foldlM_cons]
    by_cases hk : shareopt_key_rejected kv.1 = true
    · rw [cb_of_rejected hk]
      rfl
    · obtain ⟨o, ho⟩ := cb_of_accepted (Bool.not_eq_true _ ▸ hk) kv.2 acc
      rw [ho]
      have hmem2 : kv2 ∈ ts := by
        rcases List.mem_cons.mp hmem with rfl | hmem2
        · exact absurd hrej hk
        · exact hmem2
      simpa using ih o ⟨kv2, hmem2, hrej⟩

theorem get_linux_shareopts_error (shareopts : Option String)
    (h : ∃ kv ∈ foreach_nfs_shareopt shareopts, shareopt_key_rejected kv.1 = true) :
    get_linux_shareopts shareopts = .error .syntaxErr :=
  shareopts_fold_error (foreach_nfs_shareopt shareopts) _ h

/-! ### Claims -/

/-- C1: if the share-option string contains a key that
get_linux_shareopts_cb rejects (outside the allow-list after the
anon/root\x7bmapping/nosub rewrites), then nfs_validate_shareopts and
nfs_enable_share both fail with the same SA_SYNTAX_ERR, and for every
prior artifact state the failed enable leaves the canonical export
artifact exactly as it was before the call. -/
theorem c1_unrecognized_key_fails_identically (shareopts : Option String)
    (artifact : Artifact) (mountpoint : String)
    (h : ∃ kv ∈ foreach_nfs_shareopt shareopts, shareopt_key_rejected kv.1 = true) :
    nfs_validate_shareopts shareopts = SAStatus.syntaxErr ∧
    nfs_enable_share artifact mountpoint shareopts = (SAStatus.syntaxErr, artifact) := by
  have he := get_linux_shareopts_error shareopts h
  constructor
  · unfold nfs_validate_shareopts
    rw [he]
  · unfold nfs_enable_share
    rw [he]

/-- Witness for C1: the option string "frobnicate" is rejected, validation
and enable fail with the same syntax error, and the artifact keeps its
prior published line. -/
theorem c1_unrecognized_key_fails_identically_witness :
    (∃ kv ∈ foreach_nfs_shareopt (some "frobnicate"),
      shareopt_key_rejected kv.1 = true) ∧
    nfs_validate_shareopts (some "frobnicate") = SAStatus.syntaxErr ∧
    nfs_enable_share (some ["/tank host1(sec=sys,rw,no_subtree_check,mountpoint)"])
        "/tank" (some "frobnicate") =
      (SAStatus.syntaxErr, some ["/tank host1(sec=sys,rw,no_subtree_check,mountpoint)"]) :=
  ⟨by decide,
   c1_unrecognized_key_fails_identically (some "frobnicate")
     (some ["/tank host1(sec=sys,rw,no_subtree_check,mountpoint)"]) "/tank" (by decide)⟩

/-- C3 as stated is false: in "rw=host1:host2,sec=krb5" the sec token
follows the rw group, so the two produced entries carry the default
security mode "sys", not "krb5". -/
theorem c3_cex_trailing_sec_not_applied :
    (foreach_nfs_host (some "rw=host1:host2,sec=krb5") "/p").map HostEntry.sec =
      [some "sys", some "sys"] ∧
    (some "sys" : Option String) ≠ some "krb5" := by
  exact ⟨rfl, by decide⟩

/-- C3 (amended): expanding "rw=host1:host2,sec=krb5" produces exactly two
HostEntry values, one for host1 and one for host2, each with access class
"rw" and each with the default security mode "sys" (the trailing sec=krb5
token affects no group: it only precedes groups that would follow it);
placing sec=krb5 before the group yields the two entries with "krb5". -/
theorem c3_amended_two_entries (path : String) :
    foreach_nfs_host (some "rw=host1:host2,sec=krb5") path =
      [⟨path, "host1", some "sys", "rw"⟩, ⟨path, "host2", some "sys", "rw"⟩] ∧
    foreach_nfs_host (some "sec=krb5,rw=host1:host2") path =
      [⟨path, "host1", some "krb5", "rw"⟩, ⟨path, "host2", some "krb5", "rw"⟩] := by
  exact ⟨rfl, rfl⟩

/-- C5: for the option string "rw=192.168.1.0/24,sec=sys,no_root_squash"
and mountpoint "/data": translation yields exactly the ordered option list
no_subtree_check, mountpoint, no_root_squash; host expansion yields exactly
one HostEntry (path "/data", host "192.168.1.0/24", sec "sys", access "rw");
and enable renders exactly the artifact line
"/data 192.168.1.0/24(sec=sys,rw,no_subtree_check,mountpoint,no_root_squash)". -/
theorem c5_example_data_export :
    get_linux_shareopts (some "rw=192.168.1.0/24,sec=sys,no_root_squash") =
      .ok [("no_subtree_check", none), ("mountpoint", none), ("no_root_squash", none)] ∧
    render_opts [("no_subtree_check", none), ("mountpoint", none), ("no_root_squash", none)] =
      "no_subtree_check,mountpoint,no_root_squash" ∧
    foreach_nfs_host (some "rw=192.168.1.0/24,sec=sys,no_root_squash") "/data" =
      [⟨"/data", "192.168.1.0/24", some "sys", "rw"⟩] ∧
    nfs_enable_share none "/data" (some "rw=192.168.1.0/24,sec=sys,no_root_squash") =
      (SAStatus.ok,
       some ["/data 192.168.1.0/24(sec=sys,rw,no_subtree_check,mountpoint,no_root_squash)"]) := by
  exact ⟨rfl, rfl, rfl, rfl⟩

/-- C6 as stated is false: the fcntl-based acquire does not leave an
existing artifact's contents unchanged; it removes the file and recreates
it empty, so an artifact holding one published line is truncated. -/
theorem c6_cex_lock_truncates_existing :
    nfs_exports_lock_fcntl (some ["/tank host1(sec=sys,rw,no_subtree_check,mountpoint)"]) =
      some [] ∧
    some ([] : List String) ≠ some ["/tank host1(sec=sys,rw,no_subtree_check,mountpoint)"] := by
  exact ⟨rfl, by decide⟩

/-- C6 (amended): after a successful fcntl-based acquire the canonical
artifact always exists and is empty, whatever the prior state (the existing
file is removed and recreated empty, not preserved); the flock-based
acquire leaves the artifact entirely untouched (in particular it does not
create a missing artifact). -/
theorem c6_amended_acquire_truncates (artifact : Artifact) :
    nfs_exports_lock_fcntl artifact = some [] ∧
    nfs_exports_lock_flock artifact = artifact := by
  cases artifact with
  | none => exact ⟨rfl, rfl⟩
  | some lines => exact ⟨rfl, rfl⟩

/-- C9: per-key behavior of the option translator callback: ro, rw and sec
are consumed silently (no token emitted); anon is renamed anonuid;
root_mapping emits root_squash with no value and then continues as anonuid
with the original value; nosub is renamed subtree_check. -/
theorem c9_key_rewrites (value : Option String)
    (opts : List (String × Option String)) :
    get_linux_shareopts_cb "ro" value opts = .ok opts ∧
    get_linux_shareopts_cb "rw" value opts = .ok opts ∧
    get_linux_shareopts_cb "sec" value opts = .ok opts ∧
    get_linux_shareopts_cb "anon" value opts = .ok (opts ++ [("anonuid", value)]) ∧
    get_linux_shareopts_cb "root_mapping" value opts =
      .ok (opts ++ [("root_squash", none), ("anonuid", value)]) ∧
    get_linux_shareopts_cb "nosub" value opts = .ok (opts ++ [("subtree_check", value)]) := by
  refine ⟨rfl, rfl, rfl, rfl, ?_, rfl⟩
  simp [get_linux_shareopts_cb, allowedKeys]

/-- C10: an artifact line containing no space character never matches any
mountpoint: nfs_copy_entries copies it to the destination unchanged and in
place regardless of the mountpoint, and it never contributes to a true
nfs_is_shared answer. -/
theorem c10_spaceless_lines_inert (mp l : String) (pre post : List String)
    (h : ' ' ∉ l.data) :
    line_matches mp l = false ∧
    nfs_copy_entries (some (pre ++ l :: post)) mp =
      nfs_copy_entries (some pre) mp ++ l :: nfs_copy_entries (some post) mp ∧
    nfs_is_shared (some (pre ++ l :: post)) mp =
      (nfs_is_shared (some pre) mp || nfs_is_shared (some post) mp) := by
  have hm : line_matches mp l = false := by
    unfold line_matches line_matches_chars
    rw [(strchr_idx_eq_none ' ' l.data).mpr h]
  refine ⟨hm, ?_, ?_⟩
  · simp [nfs_copy_entries, List.filter_append, hm]
  · simp [nfs_is_shared, List.any_append, hm]

/-- Witness for C10: the line "nolist" has no space; copying around it
keeps it in place and it never makes the mountpoint look shared. -/
theorem c10_spaceless_lines_inert_witness :
    (' ' ∉ ("nolist" : String).data) ∧
    line_matches "/data" "nolist" = false ∧
    nfs_copy_entries (some (["/a h(o)"] ++ "nolist" :: ["/data h(o)"])) "/data" =
      nfs_copy_entries (some ["/a h(o)"]) "/data" ++
        "nolist" :: nfs_copy_entries (some ["/data h(o)"]) "/data" ∧
    nfs_is_shared (some (["/a h(o)"] ++ "nolist" :: ["/data h(o)"])) "/data" =
      (nfs_is_shared (some ["/a h(o)"]) "/data" ||
        nfs_is_shared (some ["/data h(o)"]) "/data") :=
  ⟨by decide,
   c10_spaceless_lines_inert "/data" "nolist" ["/a h(o)"] ["/data h(o)"] (by decide)⟩

/-- C7: a line is omitted by nfs_copy_entries, and equivalently makes
nfs_is_shared true, exactly when the prefix of the line up to its first
space is a full-length match of the mountpoint - that is, exactly when the
line is the mountpoint (itself space-free) followed by a space and a rest;
a path sharing only a shorter or longer prefix fails the test.  When the
artifact file is absent, the copy succeeds with an empty destination and
nfs_is_shared returns false rather than an error. -/
theorem c7_path_field_match (mp l : String) (lines : List String) :
    (line_matches mp l = true ↔
      ∃ rest : List Char, l.data = mp.data ++ ' ' :: rest ∧ ' ' ∉ mp.data) ∧
    nfs_copy_entries (some lines) mp = lines.filter (fun x => !line_matches mp x) ∧
    nfs_is_shared (some lines) mp = lines.any (fun x => line_matches mp x) ∧
    nfs_copy_entries none mp = [] ∧
    nfs_is_shared none mp = false :=
  ⟨line_matches_chars_iff mp.data l.data, rfl, rfl, rfl, rfl⟩

/-- C8: the tokenizer visits each non-empty comma-separated token in
left-to-right order, splitting each at its first '=' into key and optional
value, skipping empty tokens and processing the final token without a
trailing delimiter; a NULL option string yields no tokens; the literal "on"
is first rewritten to the fixed default "rw,crossmnt". -/
theorem c8_tokenizer (toks : List (List Char)) (k v t2 : List Char)
    (h1 : ∀ t ∈ toks, ',' ∉ t)
    (h2 : String.mk (join_comma toks) ≠ "on")
    (h3 : '=' ∉ k) (h4 : '=' ∉ t2) :
    foreach_nfs_shareopt none = [] ∧
    foreach_nfs_shareopt (some "on") = [("rw", none), ("crossmnt", none)] ∧
    foreach_nfs_shareopt (some (String.mk (join_comma toks))) =
      (toks.filter (fun t => t ≠ [])).map
        (fun t => (String.mk (eq_split t).1, ((eq_split t).2).map String.mk)) ∧
    eq_split (k ++ '=' :: v) = (k, some v) ∧
    eq_split t2 = (t2, none) := by
  refine ⟨rfl, rfl, ?_, eq_split_first k v h3, eq_split_no_eq t2 h4⟩
  show ((split_char ','
      (if String.mk (join_comma toks) = "on" then "rw,crossmnt"
       else String.mk (join_comma toks)).data).filter (fun t => t ≠ [])).map _ = _
  rw [if_neg h2]
  show ((split_char ',' (join_comma toks)).filter (fun t => t ≠ [])).map _ = _
  rw [split_join_comma toks h1]

/-- Witness for C8 at the option string "a,,b=c" (join of tokens "a", "",
"b=c"): the empty token is skipped, the final token is processed, and the
'=' splits demonstrate first-occurrence splitting. -/
theorem c8_tokenizer_witness :
    (∀ t ∈ [("a" : String).data, ([] : List Char), ("b=c" : String).data], ',' ∉ t) ∧
    String.mk (join_comma [("a" : String).data, [], ("b=c" : String).data]) ≠ "on" ∧
    ('=' ∉ ("k" : String).data) ∧ ('=' ∉ ("z" : String).data) ∧
    (foreach_nfs_shareopt none = [] ∧
     foreach_nfs_shareopt (some "on") = [("rw", none), ("crossmnt", none)] ∧
     foreach_nfs_shareopt
        (some (String.mk (join_comma [("a" : String).data, [], ("b=c" : String).data]))) =
      ([("a" : String).data, [], ("b=c" : String).data].filter (fun t => t ≠ [])).map
        (fun t => (String.mk (eq_split t).1, ((eq_split t).2).map String.mk)) ∧
     eq_split (("k" : String).data ++ '=' :: ("a=b" : String).data) =
       (("k" : String).data, some ("a=b" : String).data) ∧
     eq_split ("z" : String).data = (("z" : String).data, none)) :=
  ⟨by decide, by decide, by decide, by decide,
   c8_tokenizer [("a" : String).data, [], ("b=c" : String).data]
     ("k" : String).data ("a=b" : String).data ("z" : String).data
     (by decide) (by decide) (by decide) (by decide)⟩

/-- C4: during host expansion, a sec token stores its value into the
running security slot; the scan of a concatenated token list continues from
the running state, so a sec token affects only groups after it; entries
already produced are only ever appended to, never changed; and for a token
list containing no sec token, the scan from the initial state keeps the
default slot "sys" and every produced entry carries security "sys".  The
last conjunct ties the scan to foreach_nfs_host: its entries are the scan
of the tokenized option string from the default slot "sys". -/
theorem c4_sec_order_dependence (path : String)
    (ts1 ts2 : List (String × Option String)) (m : String)
    (st : Option String × List HostEntry) (shareopts : Option String)
    (h : ∀ kv ∈ ts1, kv.1 ≠ "sec") :
    (foreach_nfs_host_cb path st ("sec", some m)).1 = some m ∧
    host_scan path st (ts1 ++ ts2) = host_scan path (host_scan path st ts1) ts2 ∧
    (∃ rest, (host_scan path st (ts1 ++ ts2)).2 = (host_scan path st ts1).2 ++ rest) ∧
    (host_scan path (some "sys", []) ts1).1 = some "sys" ∧
    (∀ e ∈ (host_scan path (some "sys", []) ts1).2, e.sec = some "sys") ∧
    foreach_nfs_host shareopts path =
      (host_scan path (some "sys", []) (foreach_nfs_shareopt shareopts)).2 := by
  have hsys := host_scan_sys path ts1 (some "sys", []) h rfl (by simp)
  refine ⟨?_, ?_, ?_, hsys.1, hsys.2, rfl⟩
  · rw [host_cb_slot]
    simp
  · exact List.foldl_append (foreach_nfs_host_cb path) st ts1 ts2
  · rw [show host_scan path st (ts1 ++ ts2) =
        host_scan path (host_scan path st ts1) ts2 from
      List.foldl_append (foreach_nfs_host_cb path) st ts1 ts2]
    exact host_scan_entries path ts2 (host_scan path st ts1)

/-- Witness for C4: one rw group before a sec=krb5 token; the group's
entry carries "sys", the sec token sets the slot to "krb5", and scanning
the concatenation extends the earlier entries. -/
theorem c4_sec_order_dependence_witness :
    (∀ kv ∈ [(("rw" : String), some ("h1" : String))], kv.1 ≠ "sec") ∧
    ((foreach_nfs_host_cb "/p" (some "sys", []) ("sec", some "krb5")).1 = some "krb5" ∧
     host_scan "/p" (some "sys", [])
        ([(("rw" : String), some ("h1" : String))] ++
          [("sec", some "krb5"), ("rw", some "h2")]) =
      host_scan "/p"
        (host_scan "/p" (some "sys", []) [(("rw" : String), some ("h1" : String))])
        [("sec", some "krb5"), ("rw", some "h2")] ∧
     (∃ rest, (host_scan "/p" (some "sys", [])
        ([(("rw" : String), some ("h1" : String))] ++
          [("sec", some "krb5"), ("rw", some "h2")])).2 =
       (host_scan "/p" (some "sys", []) [(("rw" : String), some ("h1" : String))]).2 ++ rest) ∧
     (host_scan "/p" (some "sys", []) [(("rw" : String), some ("h1" : String))]).1 =
       some "sys" ∧
     (∀ e ∈ (host_scan "/p" (some "sys", [])
        [(("rw" : String), some ("h1" : String))]).2, e.sec = some "sys") ∧
     foreach_nfs_host (some "rw=h1,sec=krb5,rw=h2") "/p" =
       (host_scan "/p" (some "sys", [])
         (foreach_nfs_shareopt (some "rw=h1,sec=krb5,rw=h2"))).2) :=
  ⟨by decide,
   c4_sec_order_dependence "/p" [(("rw" : String), some ("h1" : String))]
     [("sec", some "krb5"), ("rw", some "h2")] "krb5" (some "sys", [])
     (some "rw=h1,sec=krb5,rw=h2") (by decide)⟩

/-- C2 as stated is false at a mountpoint containing a space: the path
field of an artifact line is matched up to the line's first space, so for
mountpoint "a b" the line published by an earlier enable is never matched,
and a second successful enable of the same mountpoint leaves the earlier
entry in place alongside the new one - entries for that mountpoint from
earlier enables remain. -/
theorem c2_cex_space_mountpoint_duplicates :
    nfs_enable_share none "a b" (some "rw=h1") =
      (SAStatus.ok, some ["a b h1(sec=sys,rw,no_subtree_check,mountpoint)"]) ∧
    nfs_enable_share (some ["a b h1(sec=sys,rw,no_subtree_check,mountpoint)"]) "a b"
        (some "rw=h2") =
      (SAStatus.ok, some ["a b h1(sec=sys,rw,no_subtree_check,mountpoint)",
                          "a b h2(sec=sys,rw,no_subtree_check,mountpoint)"]) := by
  exact ⟨rfl, rfl⟩

/-- C2 (amended): for every mountpoint containing no space character, after
a successful enable the artifact is exactly the old lines not matching the
mountpoint, in their original order, followed by one rendered line per
expanded HostEntry of this latest call; the lines matching the mountpoint
in the result are exactly the newly rendered ones, and the non-matching
lines are exactly the preserved old ones. -/
theorem c2_amended_latest_entries_only (artifact : Artifact) (mountpoint : String)
    (shareopts : Option String) (lo : List (String × Option String))
    (hmp : ' ' ∉ mountpoint.data)
    (hok : get_linux_shareopts shareopts = .ok lo) :
    nfs_enable_share artifact mountpoint shareopts =
      (SAStatus.ok, some (nfs_copy_entries artifact mountpoint ++
        (foreach_nfs_host shareopts mountpoint).map
          (nfs_add_entry_line (render_opts lo)))) ∧
    (nfs_copy_entries artifact mountpoint ++
        (foreach_nfs_host shareopts mountpoint).map
          (nfs_add_entry_line (render_opts lo))).filter
        (fun l => line_matches mountpoint l) =
      (foreach_nfs_host shareopts mountpoint).map
        (nfs_add_entry_line (render_opts lo)) ∧
    (nfs_copy_entries artifact mountpoint ++
        (foreach_nfs_host shareopts mountpoint).map
          (nfs_add_entry_line (render_opts lo))).filter
        (fun l => !(line_matches mountpoint l)) =
      nfs_copy_entries artifact mountpoint := by
  have hnew : ∀ x ∈ (foreach_nfs_host shareopts mountpoint).map
      (nfs_add_entry_line (render_opts lo)), line_matches mountpoint x = true := by
    intro x hx
    obtain ⟨e, he, rfl⟩ := List.mem_map.mp hx
    exact add_entry_line_matches mountpoint (render_opts lo) e
      (foreach_nfs_host_paths shareopts mountpoint e he) hmp
  have hold : ∀ x ∈ nfs_copy_entries artifact mountpoint,
      line_matches mountpoint x = false := copy_entries_not_match artifact mountpoint
  refine ⟨?_, ?_, ?_⟩
  · unfold nfs_enable_share
    rw [hok]
  · rw [List.filter_append]
    have hl : (nfs_copy_entries artifact mountpoint).filter
        (fun l => line_matches mountpoint l) = [] := by
      rw [List.filter_eq_nil_iff]
      intro a ha
      simp [hold a ha]
    have hr : ((foreach_nfs_host shareopts mountpoint).map
        (nfs_add_entry_line (render_opts lo))).filter
        (fun l => line_matches mountpoint l) =
        (foreach_nfs_host shareopts mountpoint).map
          (nfs_add_entry_line (render_opts lo)) := by
      rw [List.filter_eq_self]
      intro a ha
      simp [hnew a ha]
    rw [hl, hr, List.nil_append]
  · rw [List.filter_append]
    have hl : (nfs_copy_entries artifact mountpoint).filter
        (fun l => !(line_matches mountpoint l)) =
        nfs_copy_entries artifact mountpoint := by
      rw [List.filter_eq_self]
      intro a ha
      simp [hold a ha]
    have hr : ((foreach_nfs_host shareopts mountpoint).map
        (nfs_add_entry_line (render_opts lo))).filter
        (fun l => !(line_matches mountpoint l)) = [] := by
      rw [List.filter_eq_nil_iff]
      intro a ha
      simp [hnew a ha]
    rw [hl, hr, List.append_nil]

/-- Witness for C2 (amended) at mountpoint "/data" over an artifact holding
a line for another mountpoint and one stale line for "/data": enable with
"rw=h" keeps the other line, drops the stale one and appends exactly the
fresh rendered line. -/
theorem c2_amended_latest_entries_only_witness :
    (' ' ∉ ("/data" : String).data) ∧
    get_linux_shareopts (some "rw=h") =
      .ok [("no_subtree_check", none), ("mountpoint", none)] ∧
    (nfs_enable_share (some ["/a h1(sec=sys,rw,no_subtree_check,mountpoint)",
          "/data old(sec=sys,rw,no_subtree_check,mountpoint)"]) "/data" (some "rw=h") =
      (SAStatus.ok, some (nfs_copy_entries
          (some ["/a h1(sec=sys,rw,no_subtree_check,mountpoint)",
            "/data old(sec=sys,rw,no_subtree_check,mountpoint)"]) "/data" ++
        (foreach_nfs_host (some "rw=h") "/data").map
          (nfs_add_entry_line (render_opts
            [("no_subtree_check", none), ("mountpoint", none)])))) ∧
     (nfs_copy_entries (some ["/a h1(sec=sys,rw,no_subtree_check,mountpoint)",
          "/data old(sec=sys,rw,no_subtree_check,mountpoint)"]) "/data" ++
        (foreach_nfs_host (some "rw=h") "/data").map
          (nfs_add_entry_line (render_opts
            [("no_subtree_check", none), ("mountpoint", none)]))).filter
        (fun l => line_matches "/data" l) =
      (foreach_nfs_host (some "rw=h") "/data").map
        (nfs_add_entry_line (render_opts
          [("no_subtree_check", none), ("mountpoint", none)])) ∧
     (nfs_copy_entries (some ["/a h1(sec=sys,rw,no_subtree_check,mountpoint)",
          "/data old(sec=sys,rw,no_subtree_check,mountpoint)"]) "/data" ++
        (foreach_nfs_host (some "rw=h") "/data").map
          (nfs_add_entry_line (render_opts
            [("no_subtree_check", none), ("mountpoint", none)]))).filter
        (fun l => !(line_matches "/data" l)) =
      nfs_copy_entries (some ["/a h1(sec=sys,rw,no_subtree_check,mountpoint)",
        "/data old(sec=sys,rw,no_subtree_check,mountpoint)"]) "/data") :=
  ⟨by decide, rfl,
   c2_amended_latest_entries_only
     (some ["/a h1(sec=sys,rw,no_subtree_check,mountpoint)",
       "/data old(sec=sys,rw,no_subtree_check,mountpoint)"])
     "/data" (some "rw=h") [("no_subtree_check", none), ("mountpoint", none)]
     (by decide) rfl⟩
